import Mathlib

/-!
Verification of the vfs-tar crate: a read-only virtual filesystem over a tar
archive.  The definitions below are a shallow embedding of `src/lib.rs` and
`src/parser.rs`.  Byte slices are modelled as `List Nat`, Rust `&str` values
as `String`, and `HashMap<String, Entry>` as an association list with
insert-replacing-first-match semantics.  Rust panics (`unreachable!()`,
out-of-range slicing) are modelled by `Option`: `none` means the build or
operation panicked.  The debug-only `debug_assert!` checks are no-ops in
release builds and are therefore not part of the model.  The unbounded
`loop` in `TarFS::find_entry` is modelled with an explicit fuel argument
counting link resolutions: the outer `none` means the loop has not returned
within the given number of resolutions.
-/

namespace VfsTar

/-! ## Data model (`parser.rs` types) -/

/-- `TypeFlag` from `parser.rs`. -/
inductive TypeFlag where
  | normalFile
  | hardLink
  | symbolicLink
  | characterSpecial
  | blockSpecial
  | directory
  | fifo
  | contiguousFile
  | paxGlobal
  | pax
  | gnuDirectory
  | gnuLongLink
  | gnuLongName
  | gnuSparse
  | gnuVolumeHeader
  | vendorSpecific
  deriving DecidableEq

/-- `Sparse` from `parser.rs` (offset, numbytes). -/
structure Sparse where
  offset : Nat
  numbytes : Nat
  deriving DecidableEq

/-- `GnuExtraHeader` from `parser.rs`. -/
structure GnuExtraHeader where
  atime : Nat
  ctime : Nat
  offset : Nat
  sparses : List Sparse
  realsize : Nat
  deriving DecidableEq

/-- `PosixExtraHeader` from `parser.rs`; the single field is named `prefix`
in the source. -/
structure PosixExtraHeader where
  pfx : String
  deriving DecidableEq

/-- `UStarExtraHeader` from `parser.rs`. -/
inductive UStarExtraHeader where
  | posix : PosixExtraHeader → UStarExtraHeader
  | gnu : GnuExtraHeader → UStarExtraHeader
  deriving DecidableEq

/-- `UStarHeader` from `parser.rs`. -/
structure UStarHeader where
  uname : String
  gname : String
  devmajor : Nat
  devminor : Nat
  extra : UStarExtraHeader
  deriving DecidableEq

/-- `ExtraHeader` from `parser.rs`. -/
inductive ExtraHeader where
  | uStar : UStarHeader → ExtraHeader
  | padding
  deriving DecidableEq

/-- `PosixHeader` from `parser.rs`. -/
structure PosixHeader where
  name : String
  mode : Nat
  uid : Nat
  gid : Nat
  size : Nat
  mtime : Nat
  chksum : String
  typeflag : TypeFlag
  linkname : String
  ustar : ExtraHeader
  deriving DecidableEq

/-- `TarEntry` from `parser.rs`: a header plus the contents slice.  The
parser (`parse_contents`) always makes `contents.length = header.size`, but
the builder is modelled over arbitrary entries. -/
structure TarEntry where
  header : PosixHeader
  contents : List Nat
  deriving DecidableEq

/-! ## Field decoders (`parser.rs`) -/

/-- A byte in `'0'..='7'`, as recognised by nom's `oct_digit0`. -/
def isOctDigit (b : Nat) : Bool := 48 ≤ b && b ≤ 55

/-- A byte skipped by nom's `space0`: ASCII space or horizontal tab. -/
def isSpaceByte (b : Nat) : Bool := b == 32 || b == 9

/-- A byte in `'0'..='9'`, as recognised by nom's `digit1`. -/
def isDigitByte (b : Nat) : Bool := 48 ≤ b && b ≤ 57

/-- The `u64` fold of `parse_octal`: `acc * 8 + (v - b'0')`, wrapping at
`2^64` as Rust release-mode arithmetic does. -/
def octalFold (digits : List Nat) : Nat :=
  digits.foldl (fun acc v => (acc * 8 + (v - 48)) % 2 ^ 64) 0

/-- `parse_octal` from `parser.rs`: take `n` bytes, run
`terminated(oct_digit0, space0)` on them and require that the rest of the
field is empty or starts with NUL.  On success the result pairs the input
remaining after the `n`-byte field with the accumulated value. -/
def parse_octal (i : List Nat) (n : Nat) : Option (List Nat × Nat) :=
  if n ≤ i.length then
    let input := i.take n
    let rest := i.drop n
    let digits := input.takeWhile isOctDigit
    let after := (input.drop digits.length).dropWhile isSpaceByte
    if after = [] ∨ after.head? = some 0 then some (rest, octalFold digits)
    else none
  else none

/-! ## UTF-8 decoding (Rust `std::str::from_utf8`)

`parse_str`, `parse_long_name` and the PAX key/value decoders go through
`str::from_utf8`, which accepts exactly well-formed UTF-8 (no overlong
forms, no surrogates, no code points above `0x10FFFF`). -/

/-- A UTF-8 continuation byte `0x80..=0xBF`. -/
def isContByte (b : Nat) : Bool := 128 ≤ b && b ≤ 191

/-- Decode one UTF-8 scalar value from the front of the byte list,
mirroring the acceptance table of `str::from_utf8`. -/
def utf8DecodeChar : List Nat → Option (Char × List Nat)
  | [] => none
  | b1 :: rest =>
    if b1 < 128 then some (Char.ofNat b1, rest)
    else if 194 ≤ b1 ∧ b1 ≤ 223 then
      match rest with
      | b2 :: r =>
        if isContByte b2 then some (Char.ofNat ((b1 - 192) * 64 + (b2 - 128)), r) else none
      | _ => none
    else if 224 ≤ b1 ∧ b1 ≤ 239 then
      match rest with
      | b2 :: b3 :: r =>
        let okB2 : Bool :=
          if b1 = 224 then 160 ≤ b2 && b2 ≤ 191
          else if b1 = 237 then 128 ≤ b2 && b2 ≤ 159
          else isContByte b2
        if okB2 && isContByte b3 then
          some (Char.ofNat ((b1 - 224) * 4096 + (b2 - 128) * 64 + (b3 - 128)), r)
        else none
      | _ => none
    else if 240 ≤ b1 ∧ b1 ≤ 244 then
      match rest with
      | b2 :: b3 :: b4 :: r =>
        let okB2 : Bool :=
          if b1 = 240 then 144 ≤ b2 && b2 ≤ 191
          else if b1 = 244 then 128 ≤ b2 && b2 ≤ 143
          else isContByte b2
        if okB2 && isContByte b3 && isContByte b4 then
          some (Char.ofNat
            ((b1 - 240) * 262144 + (b2 - 128) * 4096 + (b3 - 128) * 64 + (b4 - 128)), r)
        else none
      | _ => none
    else none

/-- Fuel-indexed UTF-8 decoding loop; each scalar consumes at least one
byte, so fuel equal to the byte count suffices. -/
def utf8DecodeGo : Nat → List Nat → Option (List Char)
  | _, [] => some []
  | 0, _ :: _ => none
  | fuel + 1, l =>
    match utf8DecodeChar l with
    | some (c, rest) => (utf8DecodeGo fuel rest).map (fun cs => c :: cs)
    | none => none

/-- `str::from_utf8` on a byte slice. -/
def utf8Decode (l : List Nat) : Option String :=
  (utf8DecodeGo l.length l).map String.mk

/-- `parse_long_name` from `parser.rs` via `parse_str(i.len())`: the string
is the field up to the first NUL byte (or the whole field when there is no
NUL), decoded as UTF-8. -/
def parse_long_name (i : List Nat) : Option String :=
  utf8Decode (i.takeWhile (fun b => b != 0))

/-! ## PAX record parsing (`parser.rs`) -/

/-- `parse_pax_item` from `parser.rs`: `digit1`, `" "`, `take_until "="`,
`"="`, `take_until "\n"`, `"\n"`; the key and value bytes are decoded as
UTF-8.  The declared length is only inspected by a `debug_assert_eq!`
(a release no-op). -/
def parse_pax_item (i : List Nat) : Option ((String × String) × List Nat) :=
  let ds := i.takeWhile isDigitByte
  if ds.isEmpty then none
  else
    match i.drop ds.length with
    | 32 :: r2 =>
      if r2.contains 61 then
        let keyB := r2.takeWhile (fun b => b != 61)
        let r3 := r2.drop (keyB.length + 1)
        if r3.contains 10 then
          let valB := r3.takeWhile (fun b => b != 10)
          let r4 := r3.drop (valB.length + 1)
          match utf8Decode keyB, utf8Decode valB with
          | some k, some v => some ((k, v), r4)
          | _, _ => none
        else none
      else none
    | _ => none

/-- The `nom::combinator::iterator` loop inside `parse_pax`: parse items
until the item parser fails.  Every item consumes at least one byte, so
fuel `i.length + 1` is enough. -/
def parsePaxGo : Nat → List Nat → List (String × String)
  | 0, _ => []
  | fuel + 1, i =>
    match parse_pax_item i with
    | some (kv, rest) => kv :: parsePaxGo fuel rest
    | none => []

/-- `parse_pax` from `parser.rs`.  The iterator stops on the first item
error (`finish` then succeeds), so the overall parser never fails in the
model; the collected pairs are returned in order. -/
def parse_pax (i : List Nat) : List (String × String) :=
  parsePaxGo (i.length + 1) i

/-- `HashMap::get` on the map collected from the PAX item iterator: with
duplicate keys, the last inserted pair wins. -/
def paxGet (items : List (String × String)) (key : String) : Option String :=
  ((items.filter (fun p => p.1 == key)).getLast?).map (fun p => p.2)

/-- Rust `str::parse::<u64>()`: an optional leading `+`, then one or more
ASCII digits, with an overflow check at `2^64`. -/
def rustParseU64 (s : String) : Option Nat :=
  let ds := match s.data with
    | '+' :: rest => rest
    | cs => cs
  if ds ≠ [] ∧ ds.all Char.isDigit then
    let v := ds.foldl (fun acc c => acc * 10 + (c.toNat - 48)) 0
    if v < 2 ^ 64 then some v else none
  else none

/-! ## Paths

`std::path::Path` iteration on a relative path yields the `/`-separated
components with empty components and non-leading `"."` components removed;
an absolute path additionally yields a leading `"/"` root component, and a
path that is `"."` or starts with `"./"` keeps the leading `"."`. -/

/-- Split a character list at a separator, like `String.splitOn` for a
single separator character (structural, so it evaluates by `rfl`). -/
def splitChars (sep : Char) : List Char → List (List Char)
  | [] => [[]]
  | c :: cs =>
    if c == sep then [] :: splitChars sep cs
    else
      match splitChars sep cs with
      | seg :: rest => (c :: seg) :: rest
      | [] => [[c]]

/-- The `Normal` components of a path string: split on `/`, drop empty
segments and `"."` segments. -/
def splitComponents (s : String) : List String :=
  (((splitChars '/' s.data).map String.mk).filter (fun c => c != "")).filter
    (fun c => c != ".")

/-- Does the string start with the given character? -/
def startsWithChar (s : String) (c : Char) : Bool :=
  s.data.head? == some c

/-- `Path::new(s).iter()` as a component list (for the path shapes the
crate manipulates). -/
def pathComponents (s : String) : List String :=
  if startsWithChar s '/' then "/" :: splitComponents s
  else if s == "." || (match s.data with | '.' :: '/' :: _ => true | _ => false) then
    "." :: splitComponents s
  else splitComponents s

/-- `Path::file_name()` on a component list: the last component, unless it
is `..` (or the leading `.`/root component, which can only be last when it
is the whole path). -/
def fileNameOf (cs : List String) : Option String :=
  match cs.getLast? with
  | some f => if f = ".." ∨ f = "." ∨ f = "/" then none else some f
  | none => none

/-- `strip_path` from `lib.rs` followed by `Path::iter`: strip one leading
`/` from the string, then take components. -/
def strip_path (s : String) : List String :=
  pathComponents (if startsWithChar s '/' then String.mk (s.data.drop 1) else s)

/-! ## Directory tree (`lib.rs`) -/

/-- `Entry` from `lib.rs`; `DirTree = HashMap<String, Entry>` is modelled
as an association list (nested inside the `directory` constructor). -/
inductive Entry where
  | file : List Nat → Entry
  | directory : List (String × Entry) → Entry
  | link : String → Entry

/-- The association-list model of `DirTree`. -/
abbrev DirTree := List (String × Entry)

/-- `HashMap::get`. -/
def lookupTree : DirTree → String → Option Entry
  | [], _ => none
  | (k, e) :: t, key => if k == key then some e else lookupTree t key

/-- `HashMap::insert`: replace the first binding of the key, or append. -/
def treeInsert : DirTree → String → Entry → DirTree
  | [], key, e => [(key, e)]
  | (k, e') :: t, key, e =>
    if k == key then (key, e) :: t else (k, e') :: treeInsert t key e

/-! ## Tree builder (`lib.rs`, `DirTreeBuilder`) -/

/-- The builder's mutable state: the tree under construction plus the three
pending modifier slots. -/
structure BuilderState where
  root : DirTree
  longname : Option String
  longlink : Option String
  realsize : Option Nat

/-- `DirTreeBuilder::default()`. -/
def initState : BuilderState := ⟨[], none, none, none⟩

/-- The descent of `insert_dir`: walk the components, entering existing
directories and creating missing ones with `or_insert_with`, and apply `f`
to the final directory.  A `File` or `Link` at an intermediate component
hits the `unreachable!()` in `insert_dir` — a panic, modelled as `none`. -/
def insertAt : DirTree → List String → (DirTree → DirTree) → Option DirTree
  | t, [], f => some (f t)
  | t, c :: cs, f =>
    match lookupTree t c with
    | some (Entry.directory d) =>
      (insertAt d cs f).map (fun d2 => treeInsert t c (Entry.directory d2))
    | some _ => none
    | none => (insertAt [] cs f).map (fun d2 => treeInsert t c (Entry.directory d2))

/-- `DirTreeBuilder::insert_dir` on an effective name. -/
def insert_dir (t : DirTree) (name : String) : Option DirTree :=
  insertAt t (pathComponents name) (fun d => d)

/-- `DirTreeBuilder::insert_file`: ensure the parent directories exist,
then insert the file under the final component (skipped when the path has
no file name). -/
def insert_file (t : DirTree) (name : String) (buf : List Nat) : Option DirTree :=
  let cs := pathComponents name
  match fileNameOf cs with
  | some fn => insertAt t cs.dropLast (fun d => treeInsert d fn (Entry.file buf))
  | none => insertAt t cs.dropLast (fun d => d)

/-- `DirTreeBuilder::insert_link`, same shape as `insert_file`. -/
def insert_link (t : DirTree) (name : String) (target : String) : Option DirTree :=
  let cs := pathComponents name
  match fileNameOf cs with
  | some fn => insertAt t cs.dropLast (fun d => treeInsert d fn (Entry.link target))
  | none => insertAt t cs.dropLast (fun d => d)

/-- `DirTreeBuilder::get_full_name`: a ustar-POSIX extra header with a
non-empty prefix gives `format!("{}/{}", prefix, name)`, otherwise the
header name. -/
def get_full_name (e : TarEntry) : String :=
  match e.header.ustar with
  | ExtraHeader.uStar u =>
    match u.extra with
    | UStarExtraHeader.posix ph =>
      if ph.pfx ≠ "" then ph.pfx ++ "/" ++ e.header.name else e.header.name
    | UStarExtraHeader.gnu _ => e.header.name
  | ExtraHeader.padding => e.header.name

/-- The string returned by `DirTreeBuilder::get_name`:
`self.longname.take().unwrap_or_else(get_full_name)` (the clearing of the
slot is part of `processEntry`). -/
def effName (st : BuilderState) (e : TarEntry) : String :=
  st.longname.getD (get_full_name e)

/-- One iteration of the `DirTreeBuilder::build` loop, in release mode
(`debug_assert!` is a no-op).  `none` models a panic: either the
`unreachable!()` in `insert_dir`, or the out-of-range slice
`&entry.contents[..size]` when the effective size exceeds the contents
length. -/
def processEntry (st : BuilderState) (e : TarEntry) : Option BuilderState :=
  match e.header.typeflag with
  | TypeFlag.directory | TypeFlag.gnuDirectory =>
    (insert_dir st.root (effName st e)).map
      (fun r => { st with root := r, longname := none })
  | TypeFlag.hardLink | TypeFlag.symbolicLink =>
    let target := st.longlink.getD e.header.linkname
    (insert_link st.root (effName st e) target).map
      (fun r => { st with root := r, longname := none, longlink := none })
  | TypeFlag.gnuLongName =>
    match parse_long_name e.contents with
    | some n => some { st with longname := some n }
    | none => some st
  | TypeFlag.gnuLongLink =>
    match parse_long_name e.contents with
    | some n => some { st with longlink := some n }
    | none => some st
  | TypeFlag.pax =>
    let items := parse_pax e.contents
    let st1 := match paxGet items "path" with
      | some n => { st with longname := some n }
      | none => st
    let st2 := match paxGet items "linkpath" with
      | some n => { st1 with longlink := some n }
      | none => st1
    match paxGet items "size" with
    | some v => some { st2 with realsize := rustParseU64 v }
    | none => some st2
  | TypeFlag.paxGlobal | TypeFlag.gnuVolumeHeader => some st
  | _ =>
    let size := st.realsize.getD e.header.size
    if size ≤ e.contents.length then
      (insert_file st.root (effName st e) (e.contents.take size)).map
        (fun r => { st with root := r, longname := none, realsize := none })
    else none

/-- The `for entry in entries` loop of `DirTreeBuilder::build`. -/
def buildFold : BuilderState → List TarEntry → Option BuilderState
  | st, [] => some st
  | st, e :: es =>
    match processEntry st e with
    | some st' => buildFold st' es
    | none => none

/-- `DirTreeBuilder::build`: fold the record list over the default state
and return the root (or `none` if the build panicked). -/
def build (entries : List TarEntry) : Option DirTree :=
  (buildFold initState entries).map (fun st => st.root)

/-! ## Lookup engine (`lib.rs`, `TarFS`) -/

/-- `TarFS::find_entry_impl`: walk the components; an exhausted path yields
the current directory; a `File` or `Link` is returned as soon as it is hit
(the release build ignores the `debug_assert!` about leftover
components). -/
def find_entry_impl : DirTree → List String → Option Entry
  | t, [] => some (Entry.directory t)
  | t, c :: cs =>
    match lookupTree t c with
    | some (Entry.file b) => some (Entry.file b)
    | some (Entry.directory d) => find_entry_impl d cs
    | some (Entry.link tgt) => some (Entry.link tgt)
    | none => none

/-- Keep only the leading `.` component when a rebuilt `PathBuf` is
re-iterated (`Path` iteration drops interior `.` components). -/
def renormTail : List String → List String
  | [] => []
  | c :: rest => c :: rest.filter (fun x => x != ".")

/-- `TarFS::read_link`: an absolute target restarts from the target minus
its leading slash; a relative target pops the link's final component and
then folds the target's components, `..` popping and others pushing. -/
def read_link (path : List String) (target : String) : List String :=
  if startsWithChar target '/' then pathComponents (String.mk (target.data.drop 1))
  else
    renormTail
      ((pathComponents target).foldl
        (fun acc c => if c == ".." then acc.dropLast else acc ++ [c]) path.dropLast)

/-- The `loop` of `TarFS::find_entry`, fuel-indexed by the number of link
resolutions: a non-link walk result is returned at any fuel, a link result
consumes one unit of fuel and restarts from the rewritten path, and the
outer `none` means the unbounded source loop has not returned within the
given number of resolutions. -/
def findEntryLoop (t : DirTree) : Nat → List String → Option (Option Entry)
  | fuel, path =>
    match find_entry_impl t path, fuel with
    | some (Entry.link tgt), n + 1 => findEntryLoop t n (read_link path tgt)
    | some (Entry.link _), 0 => none
    | r, _ => some r

/-- `TarFS::find_entry` on a path string. -/
def find_entry (t : DirTree) (fuel : Nat) (path : String) : Option (Option Entry) :=
  findEntryLoop t fuel (strip_path path)

/-- `FileSystem::exists`: `find_entry(path).is_some()`. -/
def fsExists (t : DirTree) (fuel : Nat) (path : String) : Option Bool :=
  (find_entry t fuel path).map Option.isSome

/-- `FileSystem::open_file`: the file's bytes, or `none` (FileNotFound) for
anything else. -/
def fsOpenFile (t : DirTree) (fuel : Nat) (path : String) : Option (Option (List Nat)) :=
  (find_entry t fuel path).map (fun r =>
    match r with
    | some (Entry.file b) => some b
    | _ => none)

/-- `FileSystem::read_dir`: the empty path lists the root directly; any
other path must resolve to a directory, whose keys are returned. -/
def fsReadDir (t : DirTree) (fuel : Nat) (path : String) : Option (Option (List String)) :=
  if path == "" then some (some (t.map (fun p => p.1)))
  else
    (find_entry t fuel path).map (fun r =>
      match r with
      | some (Entry.directory d) => some (d.map (fun p => p.1))
      | _ => none)

/-- The value computed by `FileSystem::metadata`, with the `unreachable!()`
in the `EntryRef::Link` arm modelled as an explicit `panicked` marker. -/
inductive MetaResult where
  | fileMeta : Nat → MetaResult
  | dirMeta : MetaResult
  | notFound
  | panicked
  deriving DecidableEq

/-- `FileSystem::metadata`. -/
def fsMetadata (t : DirTree) (fuel : Nat) (path : String) : Option MetaResult :=
  (find_entry t fuel path).map (fun r =>
    match r with
    | some (Entry.file b) => MetaResult.fileMeta b.length
    | some (Entry.directory _) => MetaResult.dirMeta
    | some (Entry.link _) => MetaResult.panicked
    | none => MetaResult.notFound)

/-! ## Auxiliary predicates over the embedding -/

/-- The whole path exists in the tree as a chain of `Directory` nodes. -/
def dirsExist : DirTree → List String → Bool
  | _, [] => true
  | t, c :: cs =>
    match lookupTree t c with
    | some (Entry.directory d) => dirsExist d cs
    | _ => false

/-- Type flags handled by the concrete-record arms of the builder (the
directory, link and catch-all arms), i.e. everything except the modifier
and ignored flags. -/
def concreteFlag : TypeFlag → Bool
  | TypeFlag.gnuLongName | TypeFlag.gnuLongLink | TypeFlag.pax
  | TypeFlag.paxGlobal | TypeFlag.gnuVolumeHeader => false
  | _ => true

/-! ## Specification-side definitions

These are written from the spec's (or claim's) wording, to be compared
with the source-translated definitions above. -/

/-- Effective-name computation as the spec states it: a set pending
long-name wins; else a ustar-POSIX extra header with non-empty prefix P
and header name N gives `P + "/" + N`; else the header name. -/
def specEffectiveName (pending : Option String) (e : TarEntry) : String :=
  match pending with
  | some n => n
  | none =>
    match e.header.ustar with
    | ExtraHeader.uStar u =>
      match u.extra with
      | UStarExtraHeader.posix ph =>
        if ph.pfx = "" then e.header.name else ph.pfx ++ "/" ++ e.header.name
      | UStarExtraHeader.gnu _ => e.header.name
    | ExtraHeader.padding => e.header.name

/-- Big-endian base-8 value of a run of octal-digit bytes. -/
def octalVal : List Nat → Nat
  | [] => 0
  | d :: ds => (d - 48) * 8 ^ ds.length + octalVal ds

/-- The octal decoder exactly as claim C7 words it: read the leading run
of octal digits, skip ASCII spaces (only spaces), then succeed iff the
field is exhausted or the next byte is NUL. -/
def claimOctalSpacesOnly (i : List Nat) (n : Nat) : Option (List Nat × Nat) :=
  if i.length < n then none
  else
    let field := i.take n
    let digits := field.takeWhile isOctDigit
    let rest2 := (field.drop digits.length).dropWhile (fun b => b == 32)
    if rest2 = [] ∨ rest2.head? = some 0 then some (i.drop n, octalVal digits % 2 ^ 64)
    else none

/-- The amended octal decoder specification: as claim C7, but the run of
bytes skipped after the digits consists of ASCII spaces and horizontal
tabs (nom's `space0`), and the accumulated value wraps at `2^64`. -/
def specOctal (i : List Nat) (n : Nat) : Option (List Nat × Nat) :=
  if i.length < n then none
  else
    let field := i.take n
    let digits := field.takeWhile isOctDigit
    let rest2 := (field.drop digits.length).dropWhile isSpaceByte
    if rest2 = [] ∨ rest2.head? = some 0 then some (i.drop n, octalVal digits % 2 ^ 64)
    else none

/-! ## Concrete archives and trees used as test inputs -/

/-- ASCII bytes of a string. -/
def asciiBytes (s : String) : List Nat := s.data.map Char.toNat

/-- A classic (padding extra header) entry with the given name, type flag,
link name and contents; the header size field is the contents length, as
`parse_contents` guarantees. -/
def mkEntry (name : String) (flag : TypeFlag) (linkname : String)
    (contents : List Nat) : TarEntry :=
  ⟨⟨name, 0, 0, 0, contents.length, 0, "", flag, linkname, ExtraHeader.padding⟩, contents⟩

/-- A normal-file record. -/
def fileEntry (name : String) (contents : List Nat) : TarEntry :=
  mkEntry name TypeFlag.normalFile "" contents

/-- A directory record. -/
def dirEntry (name : String) : TarEntry :=
  mkEntry name TypeFlag.directory "" []

/-- A PAX extended-header record with the given contents block. -/
def paxEntry (contents : List Nat) : TarEntry :=
  mkEntry "pax" TypeFlag.pax "" contents

/-- A GNU long-name record whose payload is the given NUL-terminated
string. -/
def longNameEntry (payload : String) : TarEntry :=
  mkEntry "././@LongLink" TypeFlag.gnuLongName "" (asciiBytes payload ++ [0])

/-- A PAX record carrying `size=2`. -/
def paxSizeTwo : TarEntry := paxEntry (asciiBytes "10 size=2\n")

/-- A PAX record whose `size` value fails decimal parsing. -/
def paxBadSize : TarEntry := paxEntry (asciiBytes "12 size=xyz\n")

/-- A PAX record with no `size` key at all. -/
def paxNoSize : TarEntry := paxEntry (asciiBytes "12 other=xyz\n")

/-- The name of the i-th node of the link chain: `i+1` repetitions of
`x`, so all names are distinct. -/
def chainName (i : Nat) : String := String.mk (List.replicate (i + 1) 'x')

/-- A tree holding a chain of 41 links (`x → xx → … `) ending at a file:
resolving `"x"` takes 41 chained link resolutions. -/
def chainLinksTree : DirTree :=
  (List.range 41).map (fun i => (chainName i, Entry.link (chainName (i + 1)))) ++
    [(chainName 41, Entry.file [7])]

/-- A tree whose entry `"a"` is a link to itself. -/
def cyclicLinkTree : DirTree := [("a", Entry.link "a")]

/-! ## Helper lemmas -/

/-- Re-inserting the value a key already has leaves the map unchanged. -/
theorem treeInsert_lookup_self :
    ∀ (t : DirTree) (k : String) (e : Entry), lookupTree t k = some e → treeInsert t k e = t := by
  intro t
  induction t with
  | nil => intro k e h; simp [lookupTree] at h
  | cons hd tl ih =>
    intro k e h
    obtain ⟨k', e'⟩ := hd
    by_cases hk : k' == k
    · have hke : k' = k := by simpa using hk
      rw [lookupTree, if_pos hk] at h
      obtain rfl : e' = e := by injection h
      rw [treeInsert, if_pos hk, hke]
    · rw [lookupTree, if_neg hk] at h
      rw [treeInsert, if_neg hk, ih k e h]

/-- Descending an already-directory path with the identity action is a
no-op. -/
theorem insertAt_dirsExist_noop :
    ∀ (cs : List String) (t : DirTree),
      dirsExist t cs = true → insertAt t cs (fun d => d) = some t := by
  intro cs
  induction cs with
  | nil => intro t _; rfl
  | cons c cs ih =>
    intro t h
    unfold dirsExist at h
    cases hl : lookupTree t c with
    | none => simp [hl] at h
    | some e =>
      cases e with
      | file b => simp [hl] at h
      | link s => simp [hl] at h
      | directory d =>
        simp only [hl] at h
        simp only [insertAt, hl, ih d h, Option.map_some]
        simp [treeInsert_lookup_self t c _ hl]

/-- The loop of `find_entry` only ever exits on a non-link walk result. -/
theorem findEntryLoop_not_link (t : DirTree) :
    ∀ (fuel : Nat) (path : List String) (r : Entry),
      findEntryLoop t fuel path = some (some r) → ∀ s, r ≠ Entry.link s := by
  intro fuel
  induction fuel with
  | zero =>
    intro path r h s
    unfold findEntryLoop at h
    cases he : find_entry_impl t path with
    | none => simp [he] at h
    | some e =>
      cases e with
      | file b => simp [he] at h; simp [← h]
      | directory d => simp [he] at h; simp [← h]
      | link tgt => simp [he] at h
  | succ k ih =>
    intro path r h s
    unfold findEntryLoop at h
    cases he : find_entry_impl t path with
    | none => simp [he] at h
    | some e =>
      cases e with
      | file b => simp [he] at h; simp [← h]
      | directory d => simp [he] at h; simp [← h]
      | link tgt =>
        simp only [he] at h
        exact ih (read_link path tgt) r h s

/-- The cyclic lookup loop reproduces the same path at every iteration. -/
theorem cyclic_loop_step :
    ∀ n, findEntryLoop cyclicLinkTree n ["a"] = none := by
  intro n
  induction n with
  | zero => rfl
  | succ k ih => exact ih

/-- One step of the wrapping octal accumulator commutes with reducing the
accumulator modulo `2^64`. -/
theorem octalFold_step (a k : Nat) :
    (a % 2 ^ 64 * 8 + k) % 2 ^ 64 = (a * 8 + k) % 2 ^ 64 := by omega

/-- The wrapping left fold of `parse_octal` computes the big-endian base-8
value modulo `2^64`. -/
theorem octalFold_aux :
    ∀ (ds : List Nat) (a : Nat),
      ds.foldl (fun acc v => (acc * 8 + (v - 48)) % 2 ^ 64) (a % 2 ^ 64) =
        (a * 8 ^ ds.length + octalVal ds) % 2 ^ 64 := by
  intro ds
  induction ds with
  | nil => intro a; simp [octalVal]
  | cons d ds ih =>
    intro a
    rw [List.foldl_cons, octalFold_step, ih (a * 8 + (d - 48))]
    congr 1
    simp only [octalVal, List.length_cons]
    ring

/-- `octalFold` is `octalVal` wrapped at `2^64`. -/
theorem octalFold_eq (ds : List Nat) : octalFold ds = octalVal ds % 2 ^ 64 := by
  have h := octalFold_aux ds 0
  simpa [octalFold] using h

/-! ## Claim theorems -/

/-- C1 counterexample: on a 41-link chain, resolution needs more than 40
chained link resolutions (with only 40 it has not finished), yet the
lookup succeeds with the file instead of producing the claimed lookup
error. -/
theorem c1_chain41_resolves_despite_cap :
    find_entry chainLinksTree 1000 "x" = some (some (Entry.file [7])) ∧
      find_entry chainLinksTree 40 "x" = none :=
  ⟨rfl, rfl⟩

/-- C1 (amended): `find_entry` puts no cap on chained link resolutions and
does not always terminate: on a tree whose entry is a link to itself, the
lookup loop is still chasing links after any number n of link resolutions,
so it never returns an entry nor a lookup error. -/
theorem c1_cyclic_link_never_returns :
    ∀ n, find_entry cyclicLinkTree n "a" = none := by
  intro n
  exact cyclic_loop_step n

/-- C2: on a file record preceded by a PAX `size=S` record with S greater
than the record's contents length (the spec's scenario 6 shape), the
builder panics slicing `contents[..S]` instead of storing an S-byte
file: the build returns no tree at all. -/
theorem c2_pax_oversize_panics :
    build [paxSizeTwo, fileEntry "f" [7]] = none :=
  rfl

/-- C3: a directory record whose path component is already occupied by a
File makes `insert_dir` hit its `unreachable!()` panic — the build does
not complete with a tree, contradicting the claim that it never fails. -/
theorem c3_nondir_component_panics :
    build [fileEntry "a" [1], dirEntry "a"] = none :=
  rfl

/-- C4 counterexample: after two GNU long-name records with payloads "x"
then "y", the next concrete record is stored under "y" (the second
modifier), not under "x" (the first) as the claim states. -/
theorem c4_second_longname_wins :
    build [longNameEntry "x", longNameEntry "y", fileEntry "hdr" [7]] =
      some [("y", Entry.file [7])] :=
  rfl

/-- C7 counterexample: on the 3-byte field `"1" TAB NUL` the source
decoder succeeds with value 1, while the claim (which permits only spaces
between the digits and the NUL/end terminator) requires failure. -/
theorem c7_tab_terminator_accepted :
    parse_octal [49, 9, 0] 3 = some ([], 1) ∧
      claimOctalSpacesOnly [49, 9, 0] 3 = none :=
  ⟨rfl, rfl⟩

/-- C8 counterexample: a pending realsize of 2 survives a PAX record with
no `size` key, but a PAX record whose `size` fails decimal parsing resets
the pending realsize to unset — not the same state as if the key had been
absent. -/
theorem c8_bad_size_clobbers_realsize :
    (buildFold initState [paxSizeTwo]).map (fun st => st.realsize) = some (some 2) ∧
      (buildFold initState [paxSizeTwo, paxNoSize]).map (fun st => st.realsize) =
        some (some 2) ∧
      (buildFold initState [paxSizeTwo, paxBadSize]).map (fun st => st.realsize) =
        some none :=
  ⟨rfl, rfl, rfl⟩

/-- C5: `exists` answers `true` exactly when `open_file` or `read_dir`
would succeed on the same path with the same number of link resolutions —
equivalently, when the walk yields a File or a Directory. -/
theorem c5_exists_iff_open_or_readdir (t : DirTree) (fuel : Nat) (p : String) :
    fsExists t fuel p = some true ↔
      ((∃ b, fsOpenFile t fuel p = some (some b)) ∨
        (∃ names, fsReadDir t fuel p = some (some names))) := by
  by_cases hp : p = ""
  · subst hp
    constructor
    · intro _
      refine Or.inr ⟨_, rfl⟩
    · intro _
      show fsExists t fuel "" = some true
      cases fuel <;> rfl
  · have hpb : (p == "") = false := by simpa using hp
    cases hfe : findEntryLoop t fuel (strip_path p) with
    | none => simp [fsExists, fsOpenFile, fsReadDir, find_entry, hfe, hpb]
    | some r =>
      cases r with
      | none => simp [fsExists, fsOpenFile, fsReadDir, find_entry, hfe, hpb]
      | some e =>
        cases e with
        | file b => simp [fsExists, fsOpenFile, fsReadDir, find_entry, hfe, hpb]
        | directory d => simp [fsExists, fsOpenFile, fsReadDir, find_entry, hfe, hpb]
        | link s => exact absurd rfl (findEntryLoop_not_link t fuel _ _ hfe s)

/-- C6: the effective name of a concrete record is the pending long name
if set, else `prefix + "/" + name` for a ustar-POSIX header with non-empty
prefix, else the header name — and every concrete-record arm leaves the
pending long-name slot cleared. -/
theorem c6_effective_name (st : BuilderState) (e : TarEntry) :
    effName st e = specEffectiveName st.longname e ∧
      (∀ st', concreteFlag e.header.typeflag = true → processEntry st e = some st' →
        st'.longname = none) := by
  constructor
  · cases hl : st.longname with
    | some n => simp [effName, specEffectiveName, hl]
    | none =>
      obtain ⟨⟨nm, mo, ui, gi, sz, mt, ck, tf, ln, us⟩, cont⟩ := e
      simp only [effName, hl, Option.getD_none, specEffectiveName, get_full_name]
      cases us with
      | padding => rfl
      | uStar u =>
        obtain ⟨un, gn, dj, dn, ex⟩ := u
        cases ex with
        | gnu g => rfl
        | posix ph =>
          obtain ⟨pf⟩ := ph
          by_cases hp : pf = ""
          · simp [hp]
          · simp [hp]
  · intro st' hc hpe
    cases hf : e.header.typeflag <;> rw [hf] at hc <;> simp [concreteFlag] at hc <;>
      simp only [processEntry, hf] at hpe <;>
      first
      | (obtain ⟨r, _, hst⟩ := Option.map_eq_some'.mp hpe
         rw [← hst])
      | (split at hpe
         · obtain ⟨r, _, hst⟩ := Option.map_eq_some'.mp hpe
           rw [← hst]
         · exact absurd hpe (by simp))

/-- C6 witness: a concrete file record with a pending long name "n" is
named "n", and processing it clears the slot. -/
theorem c6_effective_name_witness :
    effName ⟨[], some "n", none, none⟩ (fileEntry "hdr" []) =
        specEffectiveName (some "n") (fileEntry "hdr" []) ∧
      (⟨[("n", Entry.file [])], none, none, none⟩ : BuilderState).longname = none :=
  ⟨(c6_effective_name ⟨[], some "n", none, none⟩ (fileEntry "hdr" [])).1,
    (c6_effective_name ⟨[], some "n", none, none⟩ (fileEntry "hdr" [])).2
      ⟨[("n", Entry.file [])], none, none, none⟩ rfl rfl⟩

/-- C9: a directory record whose whole effective path already exists as
directory nodes is a no-op merge: the tree (and every child in it) is left
exactly as it was. -/
theorem c9_explicit_dir_noop (st : BuilderState) (e : TarEntry)
    (hf : e.header.typeflag = TypeFlag.directory ∨ e.header.typeflag = TypeFlag.gnuDirectory)
    (hd : dirsExist st.root (pathComponents (effName st e)) = true) :
    processEntry st e = some { st with longname := none } := by
  have hins : insertAt st.root (pathComponents (effName st e)) (fun d => d) = some st.root :=
    insertAt_dirsExist_noop _ _ hd
  rcases hf with hf | hf <;>
    simp only [processEntry, hf, insert_dir, hins, Option.map_some] <;> rfl

/-- C9 witness: an explicit record for directory "a", which already exists
with child "b", leaves the tree unchanged. -/
theorem c9_explicit_dir_noop_witness :
    processEntry ⟨[("a", Entry.directory [("b", Entry.file [1])])], none, none, none⟩
        (dirEntry "a") =
      some ⟨[("a", Entry.directory [("b", Entry.file [1])])], none, none, none⟩ :=
  c9_explicit_dir_noop ⟨[("a", Entry.directory [("b", Entry.file [1])])], none, none, none⟩
    (dirEntry "a") (Or.inl rfl) rfl

/-- C10: the lookup loop only returns File or Directory entries, never a
Link, so the `unreachable!()` arm of `metadata` is never taken. -/
theorem c10_find_entry_never_link (t : DirTree) (fuel : Nat) (p : String) :
    (∀ r, find_entry t fuel p = some (some r) → ∀ s, r ≠ Entry.link s) ∧
      fsMetadata t fuel p ≠ some MetaResult.panicked := by
  constructor
  · intro r h s
    exact findEntryLoop_not_link t fuel (strip_path p) r h s
  · intro hmeta
    unfold fsMetadata at hmeta
    cases hfe : find_entry t fuel p with
    | none => rw [hfe] at hmeta; simp at hmeta
    | some r =>
      rw [hfe] at hmeta
      cases r with
      | none => simp at hmeta
      | some e =>
        cases e with
        | file b => simp at hmeta
        | directory d => simp at hmeta
        | link s => exact absurd rfl (findEntryLoop_not_link t fuel (strip_path p) _ hfe s)

/-- C10 witness: on a one-file tree, the resolved entry for "a" is not a
link and metadata does not panic. -/
theorem c10_find_entry_never_link_witness :
    (Entry.file [1] ≠ Entry.link "z") ∧
      fsMetadata [("a", Entry.file [1])] 1 "a" ≠ some MetaResult.panicked :=
  ⟨(c10_find_entry_never_link [("a", Entry.file [1])] 1 "a").1 (Entry.file [1]) rfl "z",
    (c10_find_entry_never_link [("a", Entry.file [1])] 1 "a").2⟩

/-- C4 (amended): a second modifier arriving while the corresponding slot
is still set overwrites the slot in a release build — the first modifier is
the one discarded, so the next concrete record is named by the second.
This holds for GNU long-name, GNU long-link and the PAX path/linkpath
keys. -/
theorem c4_modifier_overwrite (st : BuilderState) (e : TarEntry) (n : String) :
    (e.header.typeflag = TypeFlag.gnuLongName → parse_long_name e.contents = some n →
        processEntry st e = some { st with longname := some n }) ∧
      (e.header.typeflag = TypeFlag.gnuLongLink → parse_long_name e.contents = some n →
        processEntry st e = some { st with longlink := some n }) ∧
      (e.header.typeflag = TypeFlag.pax →
        paxGet (parse_pax e.contents) "path" = some n →
        (processEntry st e).map (fun s => s.longname) = some (some n)) ∧
      (e.header.typeflag = TypeFlag.pax →
        paxGet (parse_pax e.contents) "linkpath" = some n →
        (processEntry st e).map (fun s => s.longlink) = some (some n)) := by
  refine ⟨?_, ?_, ?_, ?_⟩
  · intro hf hp
    simp only [processEntry, hf, hp]
  · intro hf hp
    simp only [processEntry, hf, hp]
  · intro hf hp
    simp only [processEntry, hf, hp]
    cases h2 : paxGet (parse_pax e.contents) "linkpath" <;>
      cases h3 : paxGet (parse_pax e.contents) "size" <;> simp [h2, h3]
  · intro hf hp
    simp only [processEntry, hf, hp]
    cases h1 : paxGet (parse_pax e.contents) "path" <;>
      cases h3 : paxGet (parse_pax e.contents) "size" <;> simp [h1, h3, hp]

/-- C4 witness: with pending long name "x", a long-name record for "y"
overwrites the slot with "y". -/
theorem c4_modifier_overwrite_witness :
    processEntry ⟨[], some "x", none, none⟩ (longNameEntry "y") =
      some ⟨[], some "y", none, none⟩ :=
  (c4_modifier_overwrite ⟨[], some "x", none, none⟩ (longNameEntry "y") "y").1 rfl rfl

/-- C8 (amended): a PAX `size` value that fails decimal parsing causes no
error and the build proceeds, but the pending realsize is assigned the
failed parse result — i.e. reset to unset — discarding any previously
pending value (stated for a PAX block without path/linkpath keys). -/
theorem c8_bad_size_resets (st : BuilderState) (e : TarEntry) (v : String)
    (hf : e.header.typeflag = TypeFlag.pax)
    (hs : paxGet (parse_pax e.contents) "size" = some v)
    (hv : rustParseU64 v = none)
    (hpa : paxGet (parse_pax e.contents) "path" = none)
    (hli : paxGet (parse_pax e.contents) "linkpath" = none) :
    processEntry st e = some { st with realsize := none } := by
  simp only [processEntry, hf, hs, hv, hpa, hli]

/-- C8 witness: with pending realsize 2, the PAX record `size=xyz` resets
the pending realsize to unset without failing the build. -/
theorem c8_bad_size_resets_witness :
    processEntry ⟨[], none, none, some 2⟩ paxBadSize = some ⟨[], none, none, none⟩ :=
  c8_bad_size_resets ⟨[], none, none, some 2⟩ paxBadSize "xyz" rfl rfl rfl rfl rfl

/-- C7 (amended): the source octal decoder takes the N-byte field, reads
the leading run of octal digits (empty run gives 0), skips ASCII spaces
and horizontal tabs, succeeds iff the field is then exhausted or the next
byte is NUL, and returns the big-endian base-8 value of the digit run
(wrapped at `2^64`). -/
theorem c7_octal_spec : ∀ (i : List Nat) (n : Nat), parse_octal i n = specOctal i n := by
  intro i n
  by_cases h1 : n ≤ i.length
  · simp only [parse_octal, specOctal, octalFold_eq, if_pos h1]
    rw [if_neg (show ¬ i.length < n by omega)]
  · simp only [parse_octal, specOctal, if_neg h1]
    rw [if_pos (show i.length < n by omega)]

end VfsTar
